import Mathlib

/-!
Verification development for the adaptive practice engine of the WEBAPPTACHY
repository.  The Python sources (services/adaptive.py, services/recommendations.py,
controllers/students.py, models/performance.py, models/practice_session.py,
models/attempt.py, models/question.py) are shallowly embedded: ORM rows become
structures, SQL queries become list operations, float arithmetic becomes exact
rational arithmetic, `random.choice` becomes an index pick driven by an explicit
seed, and timestamps become natural numbers (one unit per day, so the 30-day
cutoff of `datetime.utcnow() - timedelta(days=30)` is `now - 30`).
-/

namespace Tachy

/-- models/question.py: one row of the `questions` table (fields the engine reads).
The table carries a check constraint `difficulty >= 1 AND difficulty <= 5`. -/
structure Question where
  id : Nat
  subject : String
  chapter : String
  topic : String
  difficulty : Nat
  correct_answer : String
  is_active : Bool
deriving DecidableEq

/-- models/attempt.py: one row of the `attempts` table (fields the engine reads).
`created_at` comes from the TimestampMixin; sqlalchemy stores `session_id` as a
nullable foreign key. -/
structure Attempt where
  student_id : Nat
  question_id : Nat
  session_id : Option Nat
  chosen_answer : String
  is_correct : Bool
  time_taken : Nat
  attempt_no : Nat
  created_at : Nat
deriving DecidableEq

/-- models/practice_session.py: one row of the `practice_sessions` table. -/
structure PracticeSession where
  id : Nat
  student_id : Nat
  mode : String
  subjects : List String
  chapters : List String
  topics : List String
  device_type : String
  total_questions : Nat
  correct_answers : Nat
  is_active : Bool
deriving DecidableEq

/-- models/performance.py: one row of the `performance_summaries` table. -/
structure PerformanceSummary where
  student_id : Nat
  subject : String
  accuracy : ℚ
  avg_time : ℚ
  total_attempts : Nat
  correct_attempts : Nat
deriving DecidableEq

/-- The relational store as the engine sees it. -/
structure AppState where
  questions : List Question
  sessions : List PracticeSession
  attempts : List Attempt
  summaries : List PerformanceSummary
deriving DecidableEq

/-! ### Generic list machinery standing in for SQL ORDER BY / LIMIT / random.choice -/

/-- Insert into a list kept in descending `key` order (models ORDER BY key DESC). -/
def insert_desc (key : α → Nat) (a : α) : List α → List α
  | [] => [a]
  | b :: l => if key b ≤ key a then a :: b :: l else b :: insert_desc key a l

/-- Insertion sort, descending by `key` (models ORDER BY key DESC). -/
def sort_desc (key : α → Nat) : List α → List α
  | [] => []
  | a :: l => insert_desc key a (sort_desc key l)

/-- `random.choice` modelled with an explicit seed: picks an index mod the pool
size.  The Python call sites only reach it on non-empty pools. -/
def choice (seed : Nat) (l : List α) : Option α :=
  l.get? (seed % l.length)

/-- SQL inner join of `attempts` to `questions` on `question_id = Question.id`
(the foreign key is the primary key of `questions`, so the lookup uses `find?`). -/
def join_attempt_question (questions : List Question) (attempts : List Attempt) :
    List (Attempt × Question) :=
  attempts.filterMap fun a =>
    (questions.find? fun q => q.id == a.question_id).map fun q => (a, q)

/-- `(correct or 0) / total if total > 0 else 0`, the accuracy formula used by
adaptive.py when aggregating grouped attempt rows. -/
def acc_of (total correct : Nat) : ℚ :=
  if 0 < total then (correct : ℚ) / (total : ℚ) else 0

/-! ### services/adaptive.py : AdaptiveEngine -/

/-- adaptive.py `_get_recent_questions`: ids of the student's most recently
created attempts, most-recent-first, limited to `limit` rows. -/
def get_recent_questions (attempts : List Attempt) (student_id limit : Nat) : List Nat :=
  let recent_attempts :=
    (sort_desc (fun a => a.created_at)
      (attempts.filter fun a => a.student_id == student_id)).take limit
  recent_attempts.map fun a => a.question_id

/-- adaptive.py `_get_target_difficulty`, the fetched window: the student's
attempts joined to their questions, optionally filtered to the subject/topic
scope, ordered most-recent-first and limited to 20 rows. -/
def recent_window (questions : List Question) (attempts : List Attempt)
    (student_id : Nat) (subjects topics : List String) : List (Attempt × Question) :=
  let joined := (join_attempt_question questions attempts).filter fun p =>
    p.1.student_id == student_id
      && (subjects.isEmpty || subjects.contains p.2.subject)
      && (topics.isEmpty || topics.contains p.2.topic)
  (sort_desc (fun p => p.1.created_at) joined).take 20

/-- adaptive.py `_get_target_difficulty`, line `accuracy = correct_count /
len(recent_attempts)` (float division modelled exactly over ℚ). -/
def recent_accuracy (questions : List Question) (attempts : List Attempt)
    (student_id : Nat) (subjects topics : List String) : ℚ :=
  let w := recent_window questions attempts student_id subjects topics
  ((w.countP fun p => p.1.is_correct : Nat) : ℚ) / (w.length : ℚ)

/-- adaptive.py `_get_target_difficulty`: returns 2 on an empty window, else
adjusts the truncated mean difficulty by the 0.8 / 0.4 accuracy bands.
`int(avg_difficulty)` on a non-negative mean is the floor, which over ℚ equals
natural division of the difficulty sum by the window length. -/
def get_target_difficulty (questions : List Question) (attempts : List Attempt)
    (student_id : Nat) (subjects topics : List String) : Nat :=
  let w := recent_window questions attempts student_id subjects topics
  if w.isEmpty then 2
  else
    let accuracy := recent_accuracy questions attempts student_id subjects topics
    let avg_difficulty := (w.map fun p => p.2.difficulty).sum / w.length
    if (4 : ℚ) / 5 ≤ accuracy then min 5 (avg_difficulty + 1)
    else if accuracy ≤ (2 : ℚ) / 5 then max 1 (avg_difficulty - 1)
    else avg_difficulty

/-- adaptive.py `_get_weakest_topic`, the grouped query: attempts of the last 30
days joined to questions, optionally filtered by subject, grouped by topic with
count and correct-count, keeping groups with at least 3 attempts (HAVING). -/
def topic_stats (questions : List Question) (attempts : List Attempt)
    (student_id now : Nat) (subjects : List String) : List (String × Nat × Nat) :=
  let cutoff := now - 30
  let rows := (join_attempt_question questions attempts).filter fun p =>
    p.1.student_id == student_id
      && decide (cutoff ≤ p.1.created_at)
      && (subjects.isEmpty || subjects.contains p.2.subject)
  let grouped := ((rows.map fun p => p.2.topic).dedup).map fun t =>
    let trows := rows.filter fun p => p.2.topic == t
    (t, trows.length, trows.countP fun p => p.1.is_correct)
  grouped.filter fun s => decide (3 ≤ s.2.1)

/-- adaptive.py `_get_weakest_topic`, the selection loop: starts from
`weakest_topic = None`, `lowest_accuracy = 1.0` and keeps a group only on a
strictly smaller accuracy. -/
def select_weakest (stats : List (String × Nat × Nat)) : Option String :=
  (stats.foldl
    (fun acc s => if acc_of s.2.1 s.2.2 < acc.2 then (some s.1, acc_of s.2.1 s.2.2) else acc)
    ((none : Option String), (1 : ℚ))).1

/-- adaptive.py `_get_least_covered_topic`: the questions in subject scope. -/
def scoped_questions (questions : List Question) (subjects : List String) : List Question :=
  if subjects.isEmpty then questions else questions.filter fun q => subjects.contains q.subject

/-- adaptive.py `_get_least_covered_topic`: attempts of the student over all
questions of a topic within the scoped pool (outer join grouped by topic, so a
topic with no attempts counts 0). -/
def topic_attempt_count (qs : List Question) (attempts : List Attempt)
    (student_id : Nat) (t : String) : Nat :=
  ((qs.filter fun q => q.topic == t).map fun q =>
    (attempts.filter fun a => a.question_id == q.id && a.student_id == student_id).length).sum

/-- adaptive.py `_get_least_covered_topic`: ORDER BY attempt_count ascending then
`.first()`; ties keep the earliest group. -/
def get_least_covered_topic (questions : List Question) (attempts : List Attempt)
    (student_id : Nat) (subjects : List String) : Option String :=
  let qs := scoped_questions questions subjects
  match ((qs.map fun q => q.topic).dedup).map
      (fun t => (t, topic_attempt_count qs attempts student_id t)) with
  | [] => none
  | c :: l => some (l.foldl (fun best x => if x.2 < best.2 then x else best) c).1

/-- adaptive.py `_get_weakest_topic`: falls back to the least-covered topic only
when the grouped query returns no row at all. -/
def get_weakest_topic (questions : List Question) (attempts : List Attempt)
    (student_id now : Nat) (subjects : List String) : Option String :=
  let stats := topic_stats questions attempts student_id now subjects
  if stats.isEmpty then get_least_covered_topic questions attempts student_id subjects
  else select_weakest stats

/-- adaptive.py `_get_revision_questions`: ids of questions the student attempted
at least twice (lifetime — the query has no date filter) with accuracy below 0.6,
within the optional subject/chapter/topic scope. -/
def get_revision_questions (questions : List Question) (attempts : List Attempt)
    (student_id : Nat) (subjects chapters topics : List String) : List Nat :=
  let rows := (join_attempt_question questions attempts).filter fun p =>
    p.1.student_id == student_id
      && (subjects.isEmpty || subjects.contains p.2.subject)
      && (chapters.isEmpty || chapters.contains p.2.chapter)
      && (topics.isEmpty || topics.contains p.2.topic)
  let grouped := ((rows.map fun p => p.2.id).dedup).map fun qid =>
    let qrows := rows.filter fun p => p.2.id == qid
    (qid, qrows.length, qrows.countP fun p => p.1.is_correct)
  let having := grouped.filter fun s => decide (2 ≤ s.2.1)
  (having.filter fun s => acc_of s.2.1 s.2.2 < (3 : ℚ) / 5).map fun s => s.1

/-- adaptive.py `get_next_question`, the mode-specific narrowing of the active
pool (the if/elif chain over `mode`).  An elif guard with a falsy scope list
falls through, leaving the pool unnarrowed. -/
def mode_narrow (questions : List Question) (attempts : List Attempt)
    (student_id now : Nat) (mode : String)
    (subjects chapters topics : List String) (base : List Question) : List Question :=
  if mode == "adaptive" then
    match get_weakest_topic questions attempts student_id now subjects with
    | some weak_topic => base.filter fun q => q.topic == weak_topic
    | none =>
        if subjects.isEmpty then base else base.filter fun q => subjects.contains q.subject
  else if mode == "topic" && !topics.isEmpty then
    base.filter fun q => topics.contains q.topic
  else if mode == "chapter" && !chapters.isEmpty then
    base.filter fun q => chapters.contains q.chapter
  else if mode == "multi_chapter" && !chapters.isEmpty then
    base.filter fun q => chapters.contains q.chapter
  else if mode == "multi_subject" && !subjects.isEmpty then
    base.filter fun q => subjects.contains q.subject
  else if mode == "revision" then
    let revision_questions := get_revision_questions questions attempts student_id subjects chapters topics
    if !revision_questions.isEmpty then base.filter fun q => revision_questions.contains q.id
    else if subjects.isEmpty then base else base.filter fun q => subjects.contains q.subject
  else base

/-- adaptive.py `get_next_question` up to and including the recency exclusion:
active pool, mode narrowing, then removal of the last-30 attempted question ids
(the filter is only applied when the recent list is non-empty, as in the code). -/
def candidate_pool (questions : List Question) (attempts : List Attempt)
    (student_id now : Nat) (mode : String)
    (subjects chapters topics : List String) : List Question :=
  let base := questions.filter fun q => q.is_active
  let query := mode_narrow questions attempts student_id now mode subjects chapters topics base
  let recent_questions := get_recent_questions attempts student_id 30
  if !recent_questions.isEmpty then query.filter fun q => !recent_questions.contains q.id
  else query

/-- adaptive.py `get_next_question`: the preferred difficulty band
{target, target-1 when >1, target+1 when <5}. -/
def difficulty_range (target_difficulty : Nat) : List Nat :=
  [target_difficulty]
    ++ (if 1 < target_difficulty then [target_difficulty - 1] else [])
    ++ (if target_difficulty < 5 then [target_difficulty + 1] else [])

/-- adaptive.py `get_next_question`: the preferred-difficulty pick with fallback
to the whole post-recency pool, then None. -/
def get_next_question (questions : List Question) (attempts : List Attempt)
    (student_id now : Nat) (mode : String)
    (subjects chapters topics : List String) (seed : Nat) : Option Question :=
  let query := candidate_pool questions attempts student_id now mode subjects chapters topics
  let target_difficulty := get_target_difficulty questions attempts student_id subjects topics
  let preferred_questions := query.filter fun q =>
    (difficulty_range target_difficulty).contains q.difficulty
  if !preferred_questions.isEmpty then choice seed preferred_questions
  else if !query.isEmpty then choice seed query
  else none

/-! ### models/performance.py : PerformanceSummary.update_performance -/

/-- models/performance.py `update_performance`: increments the counters,
recomputes accuracy from the counters, and updates the running average time
(first attempt sets it directly; later attempts use the weighted recurrence). -/
def update_performance (s : PerformanceSummary) (new_attempt_correct : Bool)
    (new_attempt_time : ℚ) : PerformanceSummary :=
  let total_attempts := s.total_attempts + 1
  let correct_attempts := if new_attempt_correct then s.correct_attempts + 1 else s.correct_attempts
  let accuracy := if 0 < total_attempts then (correct_attempts : ℚ) / (total_attempts : ℚ) else 0
  let avg_time :=
    if total_attempts == 1 then new_attempt_time
    else (s.avg_time * ((total_attempts : ℚ) - 1) + new_attempt_time) / (total_attempts : ℚ)
  { s with accuracy := accuracy, avg_time := avg_time,
           total_attempts := total_attempts, correct_attempts := correct_attempts }

/-- A freshly created summary row (the column defaults of performance.py). -/
def blank_summary (student_id : Nat) (subject : String) : PerformanceSummary :=
  { student_id := student_id, subject := subject, accuracy := 0, avg_time := 0,
    total_attempts := 0, correct_attempts := 0 }

/-- `update_performance` applied once per attempt, in attempt order, starting
from a fresh summary.  Each log entry is (is_correct, time_taken). -/
def apply_performance_log (student_id : Nat) (subject : String)
    (log : List (Bool × ℚ)) : PerformanceSummary :=
  log.foldl (fun s e => update_performance s e.1 e.2) (blank_summary student_id subject)

/-- Modelled from the spec: the from-scratch recomputation of accuracy over the
full attempt log for one student and subject — correct count over total count.
Stated from the spec's words to compare against the incremental recurrence. -/
def recomputed_accuracy (log : List (Bool × ℚ)) : ℚ :=
  ((log.countP fun e => e.1 : Nat) : ℚ) / ((log.length : Nat) : ℚ)

/-- controllers/students.py `_update_performance_summary`: find the (student,
subject) row, creating a blank one when absent, and apply `update_performance`.
The pair is unique in the table, so the in-place mutation of the found row is a
map over matching rows. -/
def update_performance_summary (summaries : List PerformanceSummary)
    (student_id : Nat) (subject : String) (is_correct : Bool) (time_taken : ℚ) :
    List PerformanceSummary :=
  match summaries.find? fun s => s.student_id == student_id && s.subject == subject with
  | some _ =>
      summaries.map fun s =>
        if s.student_id == student_id && s.subject == subject
        then update_performance s is_correct time_taken else s
  | none => summaries ++ [update_performance (blank_summary student_id subject) is_correct time_taken]

/-! ### models/practice_session.py and controllers/students.py : sessions -/

/-- The Attempt rows owned by a session (the `attempts` relationship, keyed by
the session foreign key). -/
def owned_attempts (attempts : List Attempt) (s : PracticeSession) : List Attempt :=
  attempts.filter fun a => a.session_id == some s.id

/-- models/practice_session.py `end_session`: deactivates the session and sets
the final aggregate counts from its owned attempts. -/
def end_session (attempts : List Attempt) (s : PracticeSession) : PracticeSession :=
  { s with is_active := false,
           total_questions := (owned_attempts attempts s).length,
           correct_answers := (owned_attempts attempts s).countP fun a => a.is_correct }

/-- controllers/students.py `start_practice_session`: the accepted mode values. -/
def valid_modes : List String :=
  ["adaptive", "topic", "chapter", "multi_chapter", "multi_subject", "revision"]

/-- controllers/students.py `start_practice_session`: rejects an unknown mode
before touching the store; otherwise ends the first active session of the
student, if any, and appends a new active session (fresh primary key `newId`).
Scope lists are stored without validation. -/
def start_practice_session (st : AppState) (student_id : Nat) (mode : String)
    (subjects chapters topics : List String) (device_type : String) (newId : Nat) :
    AppState :=
  if !valid_modes.contains mode then st
  else
    let sessions1 :=
      match st.sessions.find? fun s => s.student_id == student_id && s.is_active with
      | some active_session =>
          st.sessions.map fun s =>
            if s.id == active_session.id then end_session st.attempts s else s
      | none => st.sessions
    { st with sessions := sessions1 ++
        [{ id := newId, student_id := student_id, mode := mode, subjects := subjects,
           chapters := chapters, topics := topics, device_type := device_type,
           total_questions := 0, correct_answers := 0, is_active := true }] }

/-- The active sessions a student holds
(`PracticeSession.query.filter_by(student_id=..., is_active=True)`). -/
def active_session_count (sessions : List PracticeSession) (student_id : Nat) : Nat :=
  (sessions.filter fun s => s.student_id == student_id && s.is_active).length

/-! ### controllers/students.py : submit_attempt -/

/-- Python `str.strip()`: drops whitespace from both ends, modelled over the
character list (executable in the kernel, unlike `String.trim`). -/
def py_strip (s : String) : String :=
  ⟨((s.data.dropWhile Char.isWhitespace).reverse.dropWhile Char.isWhitespace).reverse⟩

/-- Python `str.upper()`: per-character upper-casing. -/
def py_upper (s : String) : String :=
  ⟨s.data.map Char.toUpper⟩

/-- The existing-attempt count for one (student, question, session) triple
(`Attempt.query.filter_by(student_id, question_id, session_id).count()`). -/
def count_session_attempts (attempts : List Attempt)
    (student_id question_id session_id : Nat) : Nat :=
  (attempts.filter fun a =>
    a.student_id == student_id && a.question_id == question_id
      && a.session_id == some session_id).length

/-- The outcome half of `submit_attempt`'s HTTP response. -/
inductive SubmitOutcome where
  | invalid_input : SubmitOutcome
  | question_not_found : SubmitOutcome
  | session_not_found : SubmitOutcome
  | max_attempts_reached : SubmitOutcome
  | recorded (attempt_no : Nat) (is_correct : Bool) : SubmitOutcome
deriving DecidableEq

/-- controllers/students.py `submit_attempt`: validates the payload (Python
truthiness: a zero id or a whitespace-only answer is falsy), looks up the
question and the active session, enforces the 2-attempt cap before any write,
then appends the new Attempt row with `attempt_no = existing_attempts + 1` and
updates the performance summary.  (Points/badges bookkeeping is elided; it
writes nothing before the cap check.) -/
def submit_attempt (st : AppState) (student_id question_id session_id : Nat)
    (chosen_answer_raw : String) (time_taken now : Nat) : SubmitOutcome × AppState :=
  let chosen_answer := py_strip chosen_answer_raw
  if question_id == 0 || chosen_answer == "" || session_id == 0 then
    (SubmitOutcome.invalid_input, st)
  else
    match st.questions.find? fun q => q.id == question_id with
    | none => (SubmitOutcome.question_not_found, st)
    | some question =>
      match st.sessions.find? fun s =>
          s.id == session_id && s.student_id == student_id && s.is_active with
      | none => (SubmitOutcome.session_not_found, st)
      | some _ =>
        let existing_attempts := count_session_attempts st.attempts student_id question_id session_id
        if 2 ≤ existing_attempts then (SubmitOutcome.max_attempts_reached, st)
        else
          let is_correct :=
            py_upper (py_strip chosen_answer) == py_upper (py_strip question.correct_answer)
          let attempt : Attempt :=
            { student_id := student_id, question_id := question_id,
              session_id := some session_id, chosen_answer := chosen_answer,
              is_correct := is_correct, time_taken := time_taken,
              attempt_no := existing_attempts + 1, created_at := now }
          (SubmitOutcome.recorded (existing_attempts + 1) is_correct,
            { st with attempts := st.attempts ++ [attempt],
                      summaries := update_performance_summary st.summaries student_id
                        question.subject is_correct (time_taken : ℚ) })

/-! ### services/recommendations.py : get_revision_recommendations -/

/-- One entry of the revision recommendation list (the dict built by
recommendations.py, with `last_attempted` kept as the raw timestamp). -/
structure RevisionRec where
  question_id : Nat
  subject : String
  chapter : String
  topic : String
  difficulty : Nat
  attempt_count : Nat
  priority : Nat
  last_attempt : Nat
deriving DecidableEq

/-- recommendations.py `get_revision_recommendations`: group the student's
incorrect attempts of the last 30 days by question (count and latest timestamp),
order most-recently-wrong first, keep at most `limit` groups, then drop any
question answered correctly after that latest wrong timestamp; priority is the
miss count capped at 3. -/
def get_revision_recommendations (questions : List Question) (attempts : List Attempt)
    (student_id now limit : Nat) : List RevisionRec :=
  let cutoff := now - 30
  let rows := (join_attempt_question questions attempts).filter fun p =>
    p.1.student_id == student_id && !p.1.is_correct && decide (cutoff ≤ p.1.created_at)
  let grouped := ((rows.map fun p => p.2).dedup).map fun q =>
    let qrows := rows.filter fun p => p.2.id == q.id
    (q, qrows.length, qrows.foldl (fun m p => max m p.1.created_at) 0)
  let ordered := (sort_desc (fun g => g.2.2) grouped).take limit
  ordered.filterMap fun g =>
    let recent_correct := attempts.filter fun a =>
      a.student_id == student_id && a.question_id == g.1.id && a.is_correct
        && decide (g.2.2 < a.created_at)
    if recent_correct.isEmpty then
      some { question_id := g.1.id, subject := g.1.subject, chapter := g.1.chapter,
             topic := g.1.topic, difficulty := g.1.difficulty,
             attempt_count := g.2.1, priority := min g.2.1 3, last_attempt := g.2.2 }
    else none

/-- Timestamp remapping on an attempt row; every other field is untouched.  Used
to state that a computation ignores the time dimension entirely. -/
def retime (f : Nat → Nat) (a : Attempt) : Attempt :=
  { a with created_at := f a.created_at }

/-! ### Sample rows used to exercise the model on concrete inputs -/

/-- A sample active Physics question. -/
def q_phys (i diff : Nat) (t : String) : Question :=
  { id := i, subject := "Physics", chapter := "Ch", topic := t, difficulty := diff,
    correct_answer := "A", is_active := true }

/-- A sample attempt row. -/
def att (sid qid ts : Nat) (ok : Bool) : Attempt :=
  { student_id := sid, question_id := qid, session_id := some 1, chosen_answer := "A",
    is_correct := ok, time_taken := 10, attempt_no := 1, created_at := ts }

/-- A sample session row. -/
def sess (i sid : Nat) (active : Bool) : PracticeSession :=
  { id := i, student_id := sid, mode := "adaptive", subjects := [], chapters := [],
    topics := [], device_type := "personal", total_questions := 0, correct_answers := 0,
    is_active := active }

/-! ### Lemmas about the generic list machinery -/

theorem mem_insert_desc {key : α → Nat} {a x : α} {l : List α} :
    x ∈ insert_desc key a l ↔ x = a ∨ x ∈ l := by
  induction l with
  | nil => simp [insert_desc]
  | cons b t ih =>
    by_cases hba : key b ≤ key a
    · simp [insert_desc, hba, List.mem_cons]
    · simp [insert_desc, hba, List.mem_cons, ih]
      tauto

theorem mem_sort_desc {key : α → Nat} {x : α} {l : List α} :
    x ∈ sort_desc key l ↔ x ∈ l := by
  induction l with
  | nil => simp [sort_desc]
  | cons a t ih => simp [sort_desc, mem_insert_desc, ih]

theorem pairwise_insert_desc {key : α → Nat} {a : α} {l : List α}
    (h : l.Pairwise fun x y => key y ≤ key x) :
    (insert_desc key a l).Pairwise fun x y => key y ≤ key x := by
  induction l with
  | nil => simp [insert_desc]
  | cons b t ih =>
    rcases List.pairwise_cons.mp h with ⟨hb, ht⟩
    by_cases hba : key b ≤ key a
    · rw [insert_desc, if_pos hba]
      refine List.pairwise_cons.mpr ⟨?_, h⟩
      intro y hy
      rcases List.mem_cons.mp hy with rfl | hy
      · exact hba
      · exact le_trans (hb y hy) hba
    · rw [insert_desc, if_neg hba]
      refine List.pairwise_cons.mpr ⟨?_, ih ht⟩
      intro y hy
      rcases mem_insert_desc.mp hy with rfl | hy
      · omega
      · exact hb y hy

theorem pairwise_sort_desc (key : α → Nat) (l : List α) :
    (sort_desc key l).Pairwise fun x y => key y ≤ key x := by
  induction l with
  | nil => simp [sort_desc]
  | cons a t ih => exact pairwise_insert_desc ih

theorem choice_mem {seed : Nat} {l : List α} {a : α} (h : choice seed l = some a) : a ∈ l :=
  List.get?_mem h

theorem le_foldl_max (key : α → Nat) (l : List α) (i : Nat) :
    i ≤ l.foldl (fun m x => max m (key x)) i := by
  induction l generalizing i with
  | nil => simp
  | cons a t ih => exact le_trans (Nat.le_max_left _ _) (ih _)

theorem foldl_max_ge (key : α → Nat) (l : List α) (i : Nat) :
    ∀ x ∈ l, key x ≤ l.foldl (fun m y => max m (key y)) i := by
  induction l generalizing i with
  | nil => simp
  | cons a t ih =>
    intro x hx
    rcases List.mem_cons.mp hx with rfl | hx
    · exact le_trans (Nat.le_max_right i (key x)) (le_foldl_max key t _)
    · exact ih _ x hx

theorem foldl_max_cases (key : α → Nat) (l : List α) (i : Nat) :
    l.foldl (fun m y => max m (key y)) i = i
      ∨ ∃ x ∈ l, l.foldl (fun m y => max m (key y)) i = key x := by
  induction l generalizing i with
  | nil => left; rfl
  | cons a t ih =>
    have hstep : (a :: t).foldl (fun m y => max m (key y)) i
        = t.foldl (fun m y => max m (key y)) (max i (key a)) := rfl
    rcases ih (max i (key a)) with h | ⟨x, hx, hh⟩
    · rcases max_choice i (key a) with hm | hm
      · left; rw [hstep, h, hm]
      · right; exact ⟨a, List.mem_cons_self a t, by rw [hstep, h, hm]⟩
    · right; exact ⟨x, List.mem_cons_of_mem a hx, by rw [hstep, hh]⟩

theorem foldl_max_attains {key : α → Nat} {l : List α} (h : l ≠ []) :
    ∃ x ∈ l, l.foldl (fun m y => max m (key y)) 0 = key x := by
  rcases foldl_max_cases key l 0 with h0 | hx
  · match l, h with
    | a :: t, _ =>
      refine ⟨a, List.mem_cons_self a t, ?_⟩
      have := foldl_max_ge key (a :: t) 0 a (List.mem_cons_self a t)
      omega
  · exact hx

theorem foldl_min_by {β : Type} (l : List (β × Nat)) (c : β × Nat) :
    (l.foldl (fun best x => if x.2 < best.2 then x else best) c) ∈ c :: l
      ∧ (l.foldl (fun best x => if x.2 < best.2 then x else best) c).2 ≤ c.2
      ∧ ∀ x ∈ l, (l.foldl (fun best x => if x.2 < best.2 then x else best) c).2 ≤ x.2 := by
  induction l generalizing c with
  | nil => exact ⟨List.mem_cons_self c [], le_refl _, by simp⟩
  | cons a t ih =>
    have hstep : ((a :: t).foldl (fun best x => if x.2 < best.2 then x else best) c)
        = t.foldl (fun best x => if x.2 < best.2 then x else best)
            (if a.2 < c.2 then a else c) := rfl
    rcases ih (if a.2 < c.2 then a else c) with ⟨hmem, hle, hall⟩
    have hle2 : (if a.2 < c.2 then a else c).2 ≤ c.2 := by
      by_cases h : a.2 < c.2 <;> simp [h] <;> omega
    have hlea : (if a.2 < c.2 then a else c).2 ≤ a.2 := by
      by_cases h : a.2 < c.2 <;> simp [h] <;> omega
    refine ⟨?_, ?_, ?_⟩
    · rw [hstep]
      rcases List.mem_cons.mp hmem with h | h
      · rw [h]
        by_cases hc : a.2 < c.2 <;> simp [hc]
      · exact List.mem_cons_of_mem _ (List.mem_cons_of_mem _ h)
    · rw [hstep]; exact le_trans hle hle2
    · intro x hx
      rcases List.mem_cons.mp hx with rfl | hx
      · rw [hstep]; exact le_trans hle hlea
      · rw [hstep]; exact hall x hx

theorem two_le_length_of_mem {l : List α} {a b : α} (ha : a ∈ l) (hb : b ∈ l)
    (hne : a ≠ b) : 2 ≤ l.length := by
  match l with
  | [] => cases ha
  | [c] =>
    simp only [List.mem_singleton] at ha hb
    exact absurd (ha.trans hb.symm) hne
  | _ :: _ :: _ => simp [List.length_cons]

/-! ### Lemmas about the attempt-question join -/

theorem mem_join_attempt_question {qs : List Question} {as : List Attempt}
    {p : Attempt × Question} (h : p ∈ join_attempt_question qs as) :
    p.1 ∈ as ∧ p.2 ∈ qs ∧ p.2.id = p.1.question_id := by
  rcases List.mem_filterMap.mp h with ⟨a, ha, hfa⟩
  cases hf : qs.find? fun q => q.id == a.question_id with
  | none => rw [hf] at hfa; simp at hfa
  | some q =>
    rw [hf] at hfa
    simp only [Option.map_some'] at hfa
    obtain rfl : (a, q) = p := Option.some.inj hfa
    refine ⟨ha, List.mem_of_find?_eq_some hf, ?_⟩
    have hq := List.find?_some hf
    simpa using hq

theorem join_retime (qs : List Question) (as : List Attempt) (f : Nat → Nat) :
    join_attempt_question qs (as.map (retime f))
      = (join_attempt_question qs as).map fun p => (retime f p.1, p.2) := by
  induction as with
  | nil => rfl
  | cons a t ih =>
    simp only [join_attempt_question, List.map_cons, List.filterMap_cons] at ih ⊢
    have hid : (retime f a).question_id = a.question_id := rfl
    rw [hid]
    cases hf : qs.find? fun q => q.id == a.question_id with
    | none => simpa using ih
    | some q => simpa using ih

theorem join_filter_eq {qs : List Question} (as : List Attempt) {q : Question}
    (hnd : (qs.map fun x => x.id).Nodup) (hq : q ∈ qs) (G : Attempt → Bool) :
    (join_attempt_question qs as).filter (fun p => G p.1 && p.2.id == q.id)
      = ((as.filter fun a => G a && a.question_id == q.id).map fun a => (a, q)) := by
  induction as with
  | nil => rfl
  | cons a t ih =>
    simp only [join_attempt_question, List.filterMap_cons] at ih ⊢
    cases hf : qs.find? fun x => x.id == a.question_id with
    | none =>
      have hqa : (a.question_id == q.id) = false := by
        have hnone := List.find?_eq_none.mp hf q hq
        simp only [beq_iff_eq] at hnone
        simp only [beq_eq_false_iff_ne, ne_eq]
        intro h
        exact hnone h.symm
      simp only [Option.map_none', List.filter_cons, hqa, Bool.and_false]
      exact ih
    | some q2 =>
      have hq2mem : q2 ∈ qs := List.mem_of_find?_eq_some hf
      have hq2id : q2.id = a.question_id := by simpa using List.find?_some hf
      by_cases haq : a.question_id = q.id
      · have hq2q : q2 = q := by
          refine List.inj_on_of_nodup_map hnd hq2mem hq ?_
          simp [hq2id, haq]
        subst hq2q
        have hc1 : (q2.id == q2.id) = true := by simp
        have hc2 : (a.question_id == q2.id) = true := by simp [haq, hq2id.symm]
        cases hG : G a
        · simp only [Option.map_some', List.filter_cons, hG, Bool.false_and]
          exact ih
        · simp only [Option.map_some', List.filter_cons, hG, hc1, hc2, Bool.true_and,
            List.map_cons]
          simp [ih]
      · have hc1 : (q2.id == q.id) = false := by
          simp only [beq_eq_false_iff_ne, ne_eq]
          rw [hq2id]; exact haq
        have hc2 : (a.question_id == q.id) = false := by
          simp only [beq_eq_false_iff_ne, ne_eq]; exact haq
        simp only [Option.map_some', List.filter_cons, hc1, hc2, Bool.and_false]
        exact ih

theorem join_filter_length {qs : List Question} (as : List Attempt) {q : Question}
    (hnd : (qs.map fun x => x.id).Nodup) (hq : q ∈ qs) (G : Attempt → Bool) :
    ((join_attempt_question qs as).filter fun p => G p.1 && p.2.id == q.id).length
      = (as.filter fun a => G a && a.question_id == q.id).length := by
  rw [join_filter_eq as hnd hq G, List.length_map]

theorem join_filter_countP {qs : List Question} (as : List Attempt) {q : Question}
    (hnd : (qs.map fun x => x.id).Nodup) (hq : q ∈ qs) (G H : Attempt → Bool) :
    ((join_attempt_question qs as).filter fun p => G p.1 && p.2.id == q.id).countP
        (fun p => H p.1)
      = (as.filter fun a => G a && a.question_id == q.id).countP H := by
  rw [join_filter_eq as hnd hq G, List.countP_map]
  rfl

theorem join_filter_foldl_max {qs : List Question} (as : List Attempt) {q : Question}
    (hnd : (qs.map fun x => x.id).Nodup) (hq : q ∈ qs) (G : Attempt → Bool) (i : Nat) :
    ((join_attempt_question qs as).filter fun p => G p.1 && p.2.id == q.id).foldl
        (fun m p => max m p.1.created_at) i
      = (as.filter fun a => G a && a.question_id == q.id).foldl
        (fun m a => max m a.created_at) i := by
  rw [join_filter_eq as hnd hq G, List.foldl_map]

/-! ### C5 : PerformanceSummary.update_performance as an exact running aggregate -/

theorem apply_performance_log_snoc (student_id : Nat) (subject : String)
    (log : List (Bool × ℚ)) (e : Bool × ℚ) :
    apply_performance_log student_id subject (log ++ [e])
      = update_performance (apply_performance_log student_id subject log) e.1 e.2 := by
  simp [apply_performance_log, List.foldl_append]

theorem apply_performance_log_counts (student_id : Nat) (subject : String)
    (log : List (Bool × ℚ)) :
    (apply_performance_log student_id subject log).total_attempts = log.length
      ∧ (apply_performance_log student_id subject log).correct_attempts
        = log.countP fun e => e.1 := by
  induction log using List.reverseRecOn with
  | nil => simp [apply_performance_log, blank_summary]
  | append_singleton l e ih =>
    rcases ih with ⟨h1, h2⟩
    rw [apply_performance_log_snoc]
    refine ⟨?_, ?_⟩
    · simp [update_performance, h1]
    · cases he : e.1 <;>
        simp [update_performance, h1, h2, he, List.countP_append, List.countP_cons]

/-- C5: starting from zero counts and applying `update_performance` once per
attempt in order, the counters equal the log totals, the stored accuracy equals
the from-scratch recomputation correct/total over the whole log, and each step's
average time obeys the recurrence new_avg = (old_avg * (n-1) + new_time) / n
with n the new total count. -/
theorem C5_performance_summary_refinement (student_id : Nat) (subject : String)
    (log : List (Bool × ℚ)) :
    (apply_performance_log student_id subject log).total_attempts = log.length
    ∧ (apply_performance_log student_id subject log).correct_attempts
        = log.countP (fun e => e.1)
    ∧ (apply_performance_log student_id subject log).accuracy = recomputed_accuracy log
    ∧ ∀ e : Bool × ℚ,
        (apply_performance_log student_id subject (log ++ [e])).avg_time
          = ((apply_performance_log student_id subject log).avg_time * (log.length : ℚ) + e.2)
            / ((log.length : ℚ) + 1) := by
  obtain ⟨h1, h2⟩ := apply_performance_log_counts student_id subject log
  refine ⟨h1, h2, ?_, ?_⟩
  · rcases List.eq_nil_or_concat log with rfl | ⟨l, e, rfl⟩
    · simp [apply_performance_log, blank_summary, recomputed_accuracy]
    · rw [List.concat_eq_append, apply_performance_log_snoc]
      obtain ⟨g1, g2⟩ := apply_performance_log_counts student_id subject l
      cases he : e.1 <;>
        simp [update_performance, recomputed_accuracy, g1, g2, he,
          List.countP_append, List.countP_cons, List.length_append] <;>
        push_cast <;> ring_nf
  · intro e
    rw [apply_performance_log_snoc]
    by_cases hl : log.length = 0
    · have hnil : log = [] := List.length_eq_zero.mp hl
      subst hnil
      simp [update_performance, apply_performance_log, blank_summary]
    · have hb : ((apply_performance_log student_id subject log).total_attempts + 1 == 1)
          = false := by
        rw [h1]
        exact beq_eq_false_iff_ne.mpr (by omega)
      simp only [update_performance, hb, Bool.false_eq_true, if_false, h1]
      have hq : ((log.length : ℚ) + 1) - 1 = (log.length : ℚ) := by ring
      push_cast
      rw [hq]
      simp [hl]

/-! ### C1 : the 2-attempt cap in submit_attempt -/

theorem count_session_attempts_append_single (l : List Attempt) (a : Attempt)
    (s q ss : Nat) :
    count_session_attempts (l ++ [a]) s q ss
      = count_session_attempts l s q ss
        + (if a.student_id = s ∧ a.question_id = q ∧ a.session_id = some ss then 1 else 0) := by
  rw [count_session_attempts, count_session_attempts, List.filter_append, List.length_append]
  congr 1
  by_cases h : a.student_id = s ∧ a.question_id = q ∧ a.session_id = some ss
  · obtain ⟨h1, h2, h3⟩ := h
    simp [List.filter, h1, h2, h3]
  · have hb : (a.student_id == s && a.question_id == q && a.session_id == some ss)
        = false := by
      simp only [not_and_or] at h
      rcases h with h | h | h
      · simp [beq_eq_false_iff_ne.mpr h]
      · simp [beq_eq_false_iff_ne.mpr h]
      · simp [beq_eq_false_iff_ne.mpr h]
    simp [List.filter, hb, h]

/-- C1: when 2 attempts already exist for the (student, question, session)
triple, `submit_attempt` rejects without writing (and with the question and
session present it rejects precisely with the max-attempts domain error);
a successful submission appends exactly one Attempt row carrying
attempt_no = prior count + 1 and is only possible when the prior count is
below 2; hence the at-most-2 invariant on every triple is preserved. -/
theorem C1_attempt_cap (st : AppState) (student_id question_id session_id : Nat)
    (ca : String) (time_taken now : Nat) :
    (2 ≤ count_session_attempts st.attempts student_id question_id session_id →
       (submit_attempt st student_id question_id session_id ca time_taken now).2 = st
       ∧ ∀ k c, (submit_attempt st student_id question_id session_id ca time_taken now).1
           ≠ SubmitOutcome.recorded k c)
    ∧ (∀ q, (question_id == 0 || py_strip ca == "" || session_id == 0) = false →
        st.questions.find? (fun x => x.id == question_id) = some q →
        (st.sessions.find? fun s =>
            s.id == session_id && s.student_id == student_id && s.is_active).isSome →
        2 ≤ count_session_attempts st.attempts student_id question_id session_id →
        submit_attempt st student_id question_id session_id ca time_taken now
          = (SubmitOutcome.max_attempts_reached, st))
    ∧ (∀ k c st2, submit_attempt st student_id question_id session_id ca time_taken now
          = (SubmitOutcome.recorded k c, st2) →
        k = count_session_attempts st.attempts student_id question_id session_id + 1
        ∧ count_session_attempts st.attempts student_id question_id session_id < 2
        ∧ ∃ a, st2.attempts = st.attempts ++ [a] ∧ a.student_id = student_id
            ∧ a.question_id = question_id ∧ a.session_id = some session_id
            ∧ a.attempt_no = k ∧ a.is_correct = c)
    ∧ (∀ s q ss, count_session_attempts st.attempts s q ss ≤ 2 →
        count_session_attempts
          (submit_attempt st student_id question_id session_id ca time_taken now).2.attempts
          s q ss ≤ 2) := by
  refine ⟨?_, ?_, ?_, ?_⟩
  · intro h2
    cases hv : (question_id == 0 || py_strip ca == "" || session_id == 0) with
    | true => simp [submit_attempt, hv]
    | false =>
      cases hq : st.questions.find? fun x => x.id == question_id with
      | none => simp [submit_attempt, hv, hq]
      | some q =>
        cases hs : st.sessions.find? fun s =>
            s.id == session_id && s.student_id == student_id && s.is_active with
        | none => simp [submit_attempt, hv, hq, hs]
        | some s => simp [submit_attempt, hv, hq, hs, h2]
  · intro q hv hq hsome h2
    obtain ⟨s, hs⟩ := Option.isSome_iff_exists.mp hsome
    simp [submit_attempt, hv, hq, hs, h2]
  · intro k c st2 heq
    cases hv : (question_id == 0 || py_strip ca == "" || session_id == 0) with
    | true => simp [submit_attempt, hv] at heq
    | false =>
      cases hq : st.questions.find? fun x => x.id == question_id with
      | none => simp [submit_attempt, hv, hq] at heq
      | some q =>
        cases hs : st.sessions.find? fun s =>
            s.id == session_id && s.student_id == student_id && s.is_active with
        | none => simp [submit_attempt, hv, hq, hs] at heq
        | some s =>
          by_cases h2 : 2 ≤ count_session_attempts st.attempts student_id question_id session_id
          · simp [submit_attempt, hv, hq, hs, h2] at heq
          · simp only [submit_attempt, hv, hq, hs, if_neg h2, Bool.false_eq_true, if_false,
              Prod.mk.injEq, SubmitOutcome.recorded.injEq] at heq
            obtain ⟨⟨hk, hc⟩, hst⟩ := heq
            refine ⟨hk.symm, by omega, ?_⟩
            exact ⟨_, by rw [← hst], rfl, rfl, rfl, hk, hc⟩
  · intro s q ss hle
    cases hv : (question_id == 0 || py_strip ca == "" || session_id == 0) with
    | true => simpa [submit_attempt, hv] using hle
    | false =>
      cases hq : st.questions.find? fun x => x.id == question_id with
      | none => simpa [submit_attempt, hv, hq] using hle
      | some qq =>
        cases hs : st.sessions.find? fun s =>
            s.id == session_id && s.student_id == student_id && s.is_active with
        | none => simpa [submit_attempt, hv, hq, hs] using hle
        | some ses =>
          by_cases h2 : 2 ≤ count_session_attempts st.attempts student_id question_id session_id
          · simpa [submit_attempt, hv, hq, hs, h2] using hle
          · simp only [submit_attempt, hv, hq, hs, if_neg h2, Bool.false_eq_true, if_false]
            rw [count_session_attempts_append_single]
            split
            · next hm =>
              obtain ⟨h1, h2x, h3⟩ := hm
              dsimp only at h1 h2x h3
              injection h3 with h3
              rw [← h1, ← h2x, ← h3]
              omega
            · omega

/-- C1 witness: a concrete store holding 2 attempts for the triple; the third
submission is rejected with the max-attempts error and the store is unchanged. -/
theorem C1_attempt_cap_witness :
    2 ≤ count_session_attempts [att 1 1 10 true, att 1 1 11 false] 1 1 1
    ∧ submit_attempt
        { questions := [q_phys 1 2 "T"], sessions := [sess 1 1 true],
          attempts := [att 1 1 10 true, att 1 1 11 false], summaries := [] }
        1 1 1 "B" 5 12
      = (SubmitOutcome.max_attempts_reached,
        { questions := [q_phys 1 2 "T"], sessions := [sess 1 1 true],
          attempts := [att 1 1 10 true, att 1 1 11 false], summaries := [] }) :=
  ⟨by decide,
   (C1_attempt_cap
      { questions := [q_phys 1 2 "T"], sessions := [sess 1 1 true],
        attempts := [att 1 1 10 true, att 1 1 11 false], summaries := [] }
      1 1 1 "B" 5 12).2.1 (q_phys 1 2 "T") (by decide) (by decide) (by decide) (by decide)⟩

/-! ### C6 : session aggregates and the single-active-session invariant -/

/-- C6: ending a session stores the count of its owned attempts and the number
of correct ones and deactivates it; starting a session keeps every student at
no more than one active session; and when the student already has an active
session, that session is inactive after the start call. -/
theorem C6_session_lifecycle (st : AppState) (student_id : Nat) (mode : String)
    (subjects chapters topics : List String) (device_type : String) (newId : Nat) :
    (∀ atts s, (end_session atts s).total_questions = (owned_attempts atts s).length
      ∧ (end_session atts s).correct_answers
          = (owned_attempts atts s).countP (fun a => a.is_correct)
      ∧ (end_session atts s).is_active = false)
    ∧ ((∀ sid, active_session_count st.sessions sid ≤ 1) →
        ∀ sid, active_session_count
          (start_practice_session st student_id mode subjects chapters topics
            device_type newId).sessions sid ≤ 1)
    ∧ ((∀ sid, active_session_count st.sessions sid ≤ 1) →
        valid_modes.contains mode = true →
        (∀ s ∈ st.sessions, s.id ≠ newId) →
        ∀ s0 ∈ st.sessions, s0.student_id = student_id → s0.is_active = true →
        ∀ s2 ∈ (start_practice_session st student_id mode subjects chapters topics
            device_type newId).sessions,
          s2.id = s0.id → s2.is_active = false) := by
  refine ⟨fun atts s => ⟨rfl, rfl, rfl⟩, ?_, ?_⟩
  · intro hinv sid
    cases hm : valid_modes.contains mode with
    | false =>
      simp only [start_practice_session, hm, Bool.not_false, if_true]
      exact hinv sid
    | true =>
      cases hfind : st.sessions.find? fun s => s.student_id == student_id && s.is_active with
      | none =>
        have hz : active_session_count st.sessions student_id = 0 := by
          rw [active_session_count, List.length_eq_zero]
          rw [List.filter_eq_nil]
          exact List.find?_eq_none.mp hfind
        simp only [start_practice_session, hm, Bool.not_true, Bool.false_eq_true, if_false,
          hfind]
        rw [active_session_count, List.filter_append, List.length_append]
        by_cases hsid : sid = student_id
        · subst hsid
          have h0 : (st.sessions.filter fun s => s.student_id == sid && s.is_active).length
              = 0 := hz
          simp [h0, List.filter]
        · have h1 : active_session_count st.sessions sid ≤ 1 := hinv sid
          rw [active_session_count] at h1
          have hp : ((student_id == sid) && true) = false := by
            simp only [Bool.and_true, beq_eq_false_iff_ne, ne_eq]
            exact fun h => hsid h.symm
          simp only [List.filter, hp]
          simpa using h1
      | some act =>
        have hact := List.find?_some hfind
        have hactmem := List.mem_of_find?_eq_some hfind
        obtain ⟨hacts, hacta⟩ : act.student_id = student_id ∧ act.is_active = true := by
          simpa using hact
        simp only [start_practice_session, hm, Bool.not_true, Bool.false_eq_true, if_false,
          hfind]
        rw [active_session_count, List.filter_append, List.length_append]
        by_cases hsid : sid = student_id
        · subst hsid
          have hmap0 : ((st.sessions.map fun s =>
              if s.id == act.id then end_session st.attempts s else s).filter
                fun s => s.student_id == sid && s.is_active).length = 0 := by
            rw [List.filter_map, List.length_map, List.length_eq_zero, List.filter_eq_nil]
            intro x hx hpx
            by_cases hid : (x.id == act.id) = true
            · simp only [Function.comp, hid, if_true] at hpx
              simp [end_session] at hpx
            · simp only [Function.comp, hid, Bool.false_eq_true, if_false] at hpx
              obtain ⟨hxs, hxa⟩ : x.student_id = sid ∧ x.is_active = true := by simpa using hpx
              have hxne : x ≠ act := by
                intro h
                rw [h] at hid
                simp at hid
              have hxm : x ∈ st.sessions.filter fun s => s.student_id == sid && s.is_active := by
                rw [List.mem_filter]
                exact ⟨hx, by simp [hxs, hxa]⟩
              have ham : act ∈ st.sessions.filter fun s => s.student_id == sid && s.is_active := by
                rw [List.mem_filter]
                exact ⟨hactmem, by simp [hacts, hacta]⟩
              have h2 := two_le_length_of_mem hxm ham hxne
              have h1 : active_session_count st.sessions sid ≤ 1 := hinv sid
              rw [active_session_count] at h1
              omega
          rw [hmap0]
          simp [List.filter]
        · have h1 : active_session_count st.sessions sid ≤ 1 := hinv sid
          rw [active_session_count] at h1
          have hmaple : ((st.sessions.map fun s =>
              if s.id == act.id then end_session st.attempts s else s).filter
                fun s => s.student_id == sid && s.is_active).length
              ≤ (st.sessions.filter fun s => s.student_id == sid && s.is_active).length := by
            rw [← List.countP_eq_length_filter, ← List.countP_eq_length_filter,
              List.countP_map]
            apply List.countP_mono_left
            intro x hx hpx
            simp only [Function.comp] at hpx
            by_cases hid : (x.id == act.id) = true
            · rw [if_pos hid] at hpx
              simp [end_session] at hpx
            · rwa [if_neg (by simpa using hid)] at hpx
          have hp : ((student_id == sid) && true) = false := by
            simp only [Bool.and_true, beq_eq_false_iff_ne, ne_eq]
            exact fun h => hsid h.symm
          simp only [List.filter, hp]
          simp only [List.length_nil]
          omega
  · intro hinv hm hfresh s0 hs0mem hs0sid hs0act s2 hs2mem hs2id
    have hsome : (st.sessions.find? fun s => s.student_id == student_id && s.is_active).isSome := by
      rw [List.find?_isSome]
      exact ⟨s0, hs0mem, by simp [hs0sid, hs0act]⟩
    obtain ⟨act, hfind⟩ := Option.isSome_iff_exists.mp hsome
    have hact := List.find?_some hfind
    have hactmem := List.mem_of_find?_eq_some hfind
    obtain ⟨hacts, hacta⟩ : act.student_id = student_id ∧ act.is_active = true := by
      simpa using hact
    have hacteq : act = s0 := by
      by_contra hne
      have hxm : act ∈ st.sessions.filter fun s => s.student_id == student_id && s.is_active := by
        rw [List.mem_filter]
        exact ⟨hactmem, by simp [hacts, hacta]⟩
      have hym : s0 ∈ st.sessions.filter fun s => s.student_id == student_id && s.is_active := by
        rw [List.mem_filter]
        exact ⟨hs0mem, by simp [hs0sid, hs0act]⟩
      have h2 := two_le_length_of_mem hxm hym hne
      have h1 := hinv student_id
      rw [active_session_count] at h1
      omega
    subst hacteq
    simp only [start_practice_session, hm, Bool.not_true, Bool.false_eq_true, if_false,
      hfind] at hs2mem
    rcases List.mem_append.mp hs2mem with hmap | hnew
    · rcases List.mem_map.mp hmap with ⟨x, hx, hfx⟩
      by_cases hid : (x.id == act.id) = true
      · rw [if_pos hid] at hfx
        rw [← hfx]
        rfl
      · rw [if_neg (by simpa using hid)] at hfx
        exfalso
        apply (by simpa using hid : ¬ x.id = act.id)
        rw [← hfx] at hs2id
        exact hs2id
    · exfalso
      have : s2.id = newId := by
        rcases List.mem_singleton.mp hnew with rfl
        rfl
      exact hfresh act hactmem (by rw [← hs2id, this])

/-- C6 witness: a concrete store with one active session; starting a new session
leaves the old one inactive. -/
theorem C6_session_lifecycle_witness :
    ∀ s2 ∈ (start_practice_session
        { questions := [], sessions := [sess 1 1 true], attempts := [], summaries := [] }
        1 "adaptive" [] [] [] "personal" 2).sessions,
      s2.id = (sess 1 1 true).id → s2.is_active = false :=
  (C6_session_lifecycle
      { questions := [], sessions := [sess 1 1 true], attempts := [], summaries := [] }
      1 "adaptive" [] [] [] "personal" 2).2.2
    (fun _ => List.length_filter_le _ _)
    (by decide) (by decide)
    (sess 1 1 true) (by decide) (by decide) (by decide)

/-! ### C3 : totality and range of the difficulty estimator -/

theorem le_sum_map_of_le {l : List α} {f : α → Nat} {c : Nat} (h : ∀ x ∈ l, c ≤ f x) :
    c * l.length ≤ (l.map f).sum := by
  induction l with
  | nil => simp
  | cons a t ih =>
    have ha := h a (List.mem_cons_self a t)
    have ht := ih fun x hx => h x (List.mem_cons_of_mem a hx)
    simp only [List.map_cons, List.sum_cons, List.length_cons, Nat.mul_succ]
    omega

theorem sum_map_le_of_le {l : List α} {f : α → Nat} {c : Nat} (h : ∀ x ∈ l, f x ≤ c) :
    (l.map f).sum ≤ c * l.length := by
  induction l with
  | nil => simp
  | cons a t ih =>
    have ha := h a (List.mem_cons_self a t)
    have ht := ih fun x hx => h x (List.mem_cons_of_mem a hx)
    simp only [List.map_cons, List.sum_cons, List.length_cons, Nat.mul_succ]
    omega

theorem mem_recent_window_question {questions : List Question} {attempts : List Attempt}
    {student_id : Nat} {subjects topics : List String} {p : Attempt × Question}
    (hp : p ∈ recent_window questions attempts student_id subjects topics) :
    p.2 ∈ questions := by
  unfold recent_window at hp
  have hp2 := List.mem_of_mem_take hp
  rw [mem_sort_desc] at hp2
  have hp3 := (List.mem_filter.mp hp2).1
  exact (mem_join_attempt_question hp3).2.1

/-- C3: as long as every stored question difficulty obeys the 1..5 check
constraint, the difficulty estimator always returns an integer in [1,5]; with
no matching attempt history it returns exactly 2. -/
theorem C3_target_difficulty_total (questions : List Question) (attempts : List Attempt)
    (student_id : Nat) (subjects topics : List String)
    (hd : ∀ q ∈ questions, 1 ≤ q.difficulty ∧ q.difficulty ≤ 5) :
    (1 ≤ get_target_difficulty questions attempts student_id subjects topics
      ∧ get_target_difficulty questions attempts student_id subjects topics ≤ 5)
    ∧ (recent_window questions attempts student_id subjects topics = [] →
        get_target_difficulty questions attempts student_id subjects topics = 2) := by
  constructor
  · unfold get_target_difficulty
    dsimp only
    by_cases hw : (recent_window questions attempts student_id subjects topics).isEmpty
    · rw [if_pos hw]
      omega
    · rw [if_neg hw]
      have hne : recent_window questions attempts student_id subjects topics ≠ [] :=
        fun h => hw (by simp [h])
      have hpos : 0 < (recent_window questions attempts student_id subjects topics).length :=
        List.length_pos.mpr hne
      have h1 : (recent_window questions attempts student_id subjects topics).length
          ≤ ((recent_window questions attempts student_id subjects topics).map
              fun p => p.2.difficulty).sum := by
        have := @le_sum_map_of_le _
          (recent_window questions attempts student_id subjects topics)
          (fun p => p.2.difficulty) 1
          (fun x hx => (hd x.2 (mem_recent_window_question hx)).1)
        simpa using this
      have h5 : ((recent_window questions attempts student_id subjects topics).map
            fun p => p.2.difficulty).sum
          ≤ 5 * (recent_window questions attempts student_id subjects topics).length :=
        sum_map_le_of_le fun x hx => (hd x.2 (mem_recent_window_question hx)).2
      have hdiv1 : 1 ≤ ((recent_window questions attempts student_id subjects topics).map
            fun p => p.2.difficulty).sum
          / (recent_window questions attempts student_id subjects topics).length :=
        (Nat.le_div_iff_mul_le hpos).mpr (by omega)
      have hdiv5 : ((recent_window questions attempts student_id subjects topics).map
            fun p => p.2.difficulty).sum
          / (recent_window questions attempts student_id subjects topics).length ≤ 5 := by
        have hh := @Nat.div_le_div_right _ _
          (recent_window questions attempts student_id subjects topics).length h5
        rwa [Nat.mul_comm, Nat.mul_div_cancel_left 5 hpos] at hh
      split
      · omega
      · split
        · omega
        · omega
  · intro hempty
    unfold get_target_difficulty
    dsimp only
    rw [if_pos (by simp [hempty])]

/-- C3 witness: a store whose single question has in-range difficulty; the
estimator output is in [1,5] (a student with no attempts, where it is 2). -/
theorem C3_target_difficulty_total_witness :
    1 ≤ get_target_difficulty [q_phys 1 3 "T"] [] 1 [] []
    ∧ get_target_difficulty [q_phys 1 3 "T"] [] 1 [] [] ≤ 5 :=
  (C3_target_difficulty_total [q_phys 1 3 "T"] [] 1 [] [] (by decide)).1

/-! ### C2 : the recency exclusion in get_next_question -/

/-- C2: whatever question `get_next_question` returns was drawn from the
post-recency candidate pool, hence its id is never among the student's last 30
attempted question ids; and when that pool is empty the call returns None. -/
theorem C2_no_recent_repeat (questions : List Question) (attempts : List Attempt)
    (student_id now : Nat) (mode : String) (subjects chapters topics : List String)
    (seed : Nat) :
    (∀ q, get_next_question questions attempts student_id now mode subjects chapters
        topics seed = some q →
      q ∈ candidate_pool questions attempts student_id now mode subjects chapters topics
      ∧ q.id ∉ get_recent_questions attempts student_id 30)
    ∧ (candidate_pool questions attempts student_id now mode subjects chapters topics = [] →
      get_next_question questions attempts student_id now mode subjects chapters topics seed
        = none) := by
  constructor
  · intro q hq
    have hqpool : q ∈ candidate_pool questions attempts student_id now mode subjects
        chapters topics := by
      unfold get_next_question at hq
      dsimp only at hq
      split at hq
      · exact (List.mem_filter.mp (choice_mem hq)).1
      · split at hq
        · exact choice_mem hq
        · cases hq
    refine ⟨hqpool, ?_⟩
    cases hrec : (get_recent_questions attempts student_id 30).isEmpty with
    | true =>
      have hnil : get_recent_questions attempts student_id 30 = [] := by simpa using hrec
      simp [hnil]
    | false =>
      have hmem := hqpool
      unfold candidate_pool at hmem
      dsimp only at hmem
      rw [if_pos (by simp [hrec])] at hmem
      have hczero := (List.mem_filter.mp hmem).2
      simpa using hczero
  · intro hpool
    unfold get_next_question
    dsimp only
    rw [hpool]
    simp

/-- C2 witness: a fresh student (no attempts), one active question; the engine
returns it, and its id is outside the (empty) recent list. -/
theorem C2_no_recent_repeat_witness :
    q_phys 1 2 "T" ∈ candidate_pool [q_phys 1 2 "T"] [] 1 50 "topic" [] [] ["T"]
    ∧ (q_phys 1 2 "T").id ∉ get_recent_questions [] 1 30 :=
  (C2_no_recent_repeat [q_phys 1 2 "T"] [] 1 50 "topic" [] [] ["T"] 0).1
    (q_phys 1 2 "T") (by decide)

/-! ### C9 : the accuracy denominator in the difficulty estimator -/

/-- C9 counterexample: with a single (correct) attempt in the window, the code
feeds accuracy 1 = correct_count / window_length into the decision rule, not
correct_count / 20 as the claim states. -/
theorem C9_counterexample :
    recent_window [q_phys 1 5 "T"] [att 1 1 10 true] 1 [] [] ≠ []
    ∧ (recent_window [q_phys 1 5 "T"] [att 1 1 10 true] 1 [] []).length ≠ 20
    ∧ recent_accuracy [q_phys 1 5 "T"] [att 1 1 10 true] 1 [] []
        ≠ ((recent_window [q_phys 1 5 "T"] [att 1 1 10 true] 1 [] []).countP
            (fun p => p.1.is_correct) : ℚ) / 20
    ∧ recent_accuracy [q_phys 1 5 "T"] [att 1 1 10 true] 1 [] [] = 1 := by
  have hw : recent_window [q_phys 1 5 "T"] [att 1 1 10 true] 1 [] []
      = [(att 1 1 10 true, q_phys 1 5 "T")] := by decide
  have hacc : recent_accuracy [q_phys 1 5 "T"] [att 1 1 10 true] 1 [] [] = 1 := by
    unfold recent_accuracy
    dsimp only
    rw [hw]
    simp [List.countP_cons, att]
  refine ⟨by rw [hw]; simp, by rw [hw]; simp, ?_, hacc⟩
  rw [hacc, hw]
  simp only [List.countP_cons, List.countP_nil, att]
  norm_num

/-- C9 amended: the accuracy fed into the 0.8/0.4 rule equals
correct_count / (actual window length); the window never exceeds 20 rows, and
only when it holds exactly 20 does the value coincide with correct_count / 20. -/
theorem C9_accuracy_amended (questions : List Question) (attempts : List Attempt)
    (student_id : Nat) (subjects topics : List String)
    (h : recent_window questions attempts student_id subjects topics ≠ []) :
    recent_accuracy questions attempts student_id subjects topics
      = ((recent_window questions attempts student_id subjects topics).countP
          (fun p => p.1.is_correct) : ℚ)
        / ((recent_window questions attempts student_id subjects topics).length : ℚ)
    ∧ (recent_window questions attempts student_id subjects topics).length ≤ 20
    ∧ ((recent_window questions attempts student_id subjects topics).length = 20 →
        recent_accuracy questions attempts student_id subjects topics
          = ((recent_window questions attempts student_id subjects topics).countP
              (fun p => p.1.is_correct) : ℚ) / 20) := by
  refine ⟨rfl, ?_, ?_⟩
  · unfold recent_window
    dsimp only
    rw [List.length_take]
    exact min_le_left _ _
  · intro h20
    have hdef : recent_accuracy questions attempts student_id subjects topics
        = ((recent_window questions attempts student_id subjects topics).countP
            (fun p => p.1.is_correct) : ℚ)
          / ((recent_window questions attempts student_id subjects topics).length : ℚ) := rfl
    rw [hdef, h20]
    norm_num

/-- C9 witness: a concrete non-empty window obeying the amended bound. -/
theorem C9_accuracy_amended_witness :
    (recent_window [q_phys 1 5 "T"] [att 1 1 10 true] 1 [] []).length ≤ 20 :=
  (C9_accuracy_amended [q_phys 1 5 "T"] [att 1 1 10 true] 1 [] [] (by decide)).2.1

/-! ### C8 : scope validation of next-question requests -/

/-- C8 counterexample: a session-start request with mode "topic" and an empty
topics list is accepted (a session row is created), and the engine then serves
a question from the silently widened pool instead of rejecting the request. -/
theorem C8_counterexample :
    (start_practice_session
        { questions := [q_phys 1 2 "X"], sessions := [], attempts := [], summaries := [] }
        1 "topic" [] [] [] "personal" 1).sessions.length = 1
    ∧ get_next_question [q_phys 1 2 "X"] [] 1 50 "topic" [] [] [] 0
        = some (q_phys 1 2 "X") := by
  constructor
  · decide
  · decide

/-- C8 amended: only an unknown mode value is rejected (before any write); a
mode of "topic" or "chapter" with an empty scope list is not rejected — the
mode narrowing silently degenerates to the identity on the active pool. -/
theorem C8_scope_validation_amended (st : AppState) (student_id : Nat) (mode : String)
    (subjects chapters topics : List String) (device_type : String) (newId : Nat)
    (questions : List Question) (attempts : List Attempt) (now : Nat)
    (h : valid_modes.contains mode = false) :
    start_practice_session st student_id mode subjects chapters topics device_type newId = st
    ∧ (∀ base, mode_narrow questions attempts student_id now "topic" subjects chapters []
        base = base)
    ∧ (∀ base, mode_narrow questions attempts student_id now "chapter" subjects [] topics
        base = base) := by
  refine ⟨?_, fun base => rfl, fun base => rfl⟩
  simp only [start_practice_session, h, Bool.not_false, if_true]

/-- C8 witness: an unknown mode leaves a concrete store untouched. -/
theorem C8_scope_validation_amended_witness :
    start_practice_session
        { questions := [], sessions := [], attempts := [], summaries := [] }
        1 "bogus" [] [] [] "personal" 1
      = { questions := [], sessions := [], attempts := [], summaries := [] } :=
  (C8_scope_validation_amended
      { questions := [], sessions := [], attempts := [], summaries := [] }
      1 "bogus" [] [] [] "personal" 1 [] [] 50 (by decide)).1

/-! ### C4 : the weakest-topic selection loop -/

theorem select_weakest_fold (stats : List (String × Nat × Nat)) (w : Option String) (lo : ℚ) :
    (stats.foldl
        (fun acc s => if acc_of s.2.1 s.2.2 < acc.2 then (some s.1, acc_of s.2.1 s.2.2) else acc)
        (w, lo) = (w, lo)
      ∨ ∃ s ∈ stats,
          (stats.foldl (fun acc s =>
              if acc_of s.2.1 s.2.2 < acc.2 then (some s.1, acc_of s.2.1 s.2.2) else acc)
            (w, lo)).1 = some s.1
          ∧ (stats.foldl (fun acc s =>
              if acc_of s.2.1 s.2.2 < acc.2 then (some s.1, acc_of s.2.1 s.2.2) else acc)
            (w, lo)).2 = acc_of s.2.1 s.2.2)
    ∧ (stats.foldl (fun acc s =>
          if acc_of s.2.1 s.2.2 < acc.2 then (some s.1, acc_of s.2.1 s.2.2) else acc)
        (w, lo)).2 ≤ lo
    ∧ ∀ s ∈ stats,
        (stats.foldl (fun acc s =>
            if acc_of s.2.1 s.2.2 < acc.2 then (some s.1, acc_of s.2.1 s.2.2) else acc)
          (w, lo)).2 ≤ acc_of s.2.1 s.2.2 := by
  induction stats generalizing w lo with
  | nil => exact ⟨Or.inl rfl, le_refl _, by simp⟩
  | cons a t ih =>
    by_cases ha : acc_of a.2.1 a.2.2 < lo
    · have hstep : ((a :: t).foldl
          (fun acc s => if acc_of s.2.1 s.2.2 < acc.2 then (some s.1, acc_of s.2.1 s.2.2) else acc)
          (w, lo))
          = (t.foldl
            (fun acc s => if acc_of s.2.1 s.2.2 < acc.2 then (some s.1, acc_of s.2.1 s.2.2) else acc)
            (some a.1, acc_of a.2.1 a.2.2)) := by
        simp [List.foldl_cons, ha]
      rcases ih (some a.1) (acc_of a.2.1 a.2.2) with ⟨hd, hle, hall⟩
      refine ⟨?_, ?_, ?_⟩
      · right
        rcases hd with heq | ⟨s, hs, h1, h2⟩
        · exact ⟨a, List.mem_cons_self a t, by rw [hstep, heq], by rw [hstep, heq]⟩
        · exact ⟨s, List.mem_cons_of_mem a hs, by rw [hstep]; exact h1, by rw [hstep]; exact h2⟩
      · rw [hstep]
        exact le_trans hle (le_of_lt ha)
      · intro s hs
        rcases List.mem_cons.mp hs with rfl | hs
        · rw [hstep]; exact hle
        · rw [hstep]; exact hall s hs
    · have hstep : ((a :: t).foldl
          (fun acc s => if acc_of s.2.1 s.2.2 < acc.2 then (some s.1, acc_of s.2.1 s.2.2) else acc)
          (w, lo))
          = (t.foldl
            (fun acc s => if acc_of s.2.1 s.2.2 < acc.2 then (some s.1, acc_of s.2.1 s.2.2) else acc)
            (w, lo)) := by
        simp [List.foldl_cons, ha]
      rcases ih w lo with ⟨hd, hle, hall⟩
      refine ⟨?_, ?_, ?_⟩
      · rcases hd with heq | ⟨s, hs, h1, h2⟩
        · left; rw [hstep, heq]
        · right; exact ⟨s, List.mem_cons_of_mem a hs, by rw [hstep]; exact h1,
            by rw [hstep]; exact h2⟩
      · rw [hstep]; exact hle
      · intro s hs
        rcases List.mem_cons.mp hs with rfl | hs
        · rw [hstep]; exact le_trans hle (not_lt.mp ha)
        · rw [hstep]; exact hall s hs

theorem select_weakest_fold_const (stats : List (String × Nat × Nat)) (w : Option String)
    (lo : ℚ) (h : ∀ s ∈ stats, ¬ acc_of s.2.1 s.2.2 < lo) :
    stats.foldl
        (fun acc s => if acc_of s.2.1 s.2.2 < acc.2 then (some s.1, acc_of s.2.1 s.2.2) else acc)
        (w, lo) = (w, lo) := by
  induction stats with
  | nil => rfl
  | cons a t ih =>
    have ha := h a (List.mem_cons_self a t)
    simp only [List.foldl_cons, if_neg ha]
    exact ih fun s hs => h s (List.mem_cons_of_mem a hs)

theorem select_weakest_fold_lt (stats : List (String × Nat × Nat)) (w : Option String)
    (lo : ℚ) (h : ∃ s ∈ stats, acc_of s.2.1 s.2.2 < lo) :
    (stats.foldl
        (fun acc s => if acc_of s.2.1 s.2.2 < acc.2 then (some s.1, acc_of s.2.1 s.2.2) else acc)
        (w, lo)).2 < lo := by
  induction stats generalizing w lo with
  | nil => simp at h
  | cons a t ih =>
    by_cases ha : acc_of a.2.1 a.2.2 < lo
    · simp only [List.foldl_cons, if_pos ha]
      obtain ⟨_, hle, _⟩ := select_weakest_fold t (some a.1) (acc_of a.2.1 a.2.2)
      exact lt_of_le_of_lt hle ha
    · simp only [List.foldl_cons, if_neg ha]
      obtain ⟨s, hs, hslt⟩ := h
      rcases List.mem_cons.mp hs with rfl | hs
      · exact absurd hslt ha
      · exact ih w lo ⟨s, hs, hslt⟩

/-- C4 counterexample: one topic with 3 in-window attempts, all correct, meets
the 3-attempt floor, yet the lookup returns None (the loop only keeps a topic
on accuracy strictly below the 1.0 start value) instead of that lowest-accuracy
topic. -/
theorem C4_counterexample :
    topic_stats [q_phys 1 3 "T"] [att 1 1 40 true, att 1 1 41 true, att 1 1 42 true]
        1 50 [] = [("T", 3, 3)]
    ∧ get_weakest_topic [q_phys 1 3 "T"] [att 1 1 40 true, att 1 1 41 true, att 1 1 42 true]
        1 50 [] = none := by
  have hs : topic_stats [q_phys 1 3 "T"] [att 1 1 40 true, att 1 1 41 true, att 1 1 42 true]
      1 50 [] = [("T", 3, 3)] := by decide
  refine ⟨hs, ?_⟩
  unfold get_weakest_topic
  dsimp only
  rw [hs]
  rw [if_neg (by simp)]
  unfold select_weakest
  simp only [List.foldl_cons, List.foldl_nil]
  rw [if_neg (by norm_num [acc_of])]

/-- C4 amended: when some topic meets the 3-attempt floor, any returned topic is
a floor-meeting topic of minimal accuracy, and one is returned whenever some
floor-meeting topic has accuracy strictly below 1.0; if every floor-meeting
topic has accuracy 1.0 the lookup returns None; only when no topic meets the
floor does it fall back to the least-covered topic, which minimises the
student's attempt count over the topics in scope (unattempted topics count 0
and so are preferred). -/
theorem C4_weakest_topic_amended (questions : List Question) (attempts : List Attempt)
    (student_id now : Nat) (subjects : List String) :
    (∀ t, topic_stats questions attempts student_id now subjects ≠ [] →
      get_weakest_topic questions attempts student_id now subjects = some t →
      ∃ s ∈ topic_stats questions attempts student_id now subjects,
        s.1 = t ∧ 3 ≤ s.2.1
        ∧ ∀ s2 ∈ topic_stats questions attempts student_id now subjects,
            acc_of s.2.1 s.2.2 ≤ acc_of s2.2.1 s2.2.2)
    ∧ (topic_stats questions attempts student_id now subjects ≠ [] →
        (∃ s ∈ topic_stats questions attempts student_id now subjects,
          acc_of s.2.1 s.2.2 < 1) →
        (get_weakest_topic questions attempts student_id now subjects).isSome = true)
    ∧ (topic_stats questions attempts student_id now subjects ≠ [] →
        (∀ s ∈ topic_stats questions attempts student_id now subjects,
          ¬ acc_of s.2.1 s.2.2 < 1) →
        get_weakest_topic questions attempts student_id now subjects = none)
    ∧ (topic_stats questions attempts student_id now subjects = [] →
        get_weakest_topic questions attempts student_id now subjects
          = get_least_covered_topic questions attempts student_id subjects)
    ∧ (∀ t, get_least_covered_topic questions attempts student_id subjects = some t →
        t ∈ ((scoped_questions questions subjects).map fun q => q.topic).dedup
        ∧ ∀ t2 ∈ ((scoped_questions questions subjects).map fun q => q.topic).dedup,
            topic_attempt_count (scoped_questions questions subjects) attempts student_id t
              ≤ topic_attempt_count (scoped_questions questions subjects) attempts
                  student_id t2) := by
  refine ⟨?_, ?_, ?_, ?_, ?_⟩
  · intro t hne hsome
    unfold get_weakest_topic at hsome
    dsimp only at hsome
    rw [if_neg (fun h => hne (by simpa using h))] at hsome
    unfold select_weakest at hsome
    obtain ⟨hd, hle, hall⟩ :=
      select_weakest_fold (topic_stats questions attempts student_id now subjects) none 1
    rcases hd with heq | ⟨s, hs, h1, h2⟩
    · rw [heq] at hsome
      cases hsome
    · rw [h1] at hsome
      obtain rfl : s.1 = t := Option.some.inj hsome
      have h3 : 3 ≤ s.2.1 := by
        have hs2 := hs
        unfold topic_stats at hs2
        dsimp only at hs2
        have := (List.mem_filter.mp hs2).2
        simpa using this
      exact ⟨s, hs, rfl, h3, fun s2 hs2 => h2 ▸ hall s2 hs2⟩
  · intro hne hex
    unfold get_weakest_topic
    dsimp only
    rw [if_neg (fun h => hne (by simpa using h))]
    unfold select_weakest
    have hlt := select_weakest_fold_lt
      (topic_stats questions attempts student_id now subjects) none 1 hex
    obtain ⟨hd, _, _⟩ :=
      select_weakest_fold (topic_stats questions attempts student_id now subjects) none 1
    rcases hd with heq | ⟨s, hs, h1, h2⟩
    · rw [heq] at hlt
      exact absurd hlt (lt_irrefl 1)
    · rw [h1]
      rfl
  · intro hne hnone
    unfold get_weakest_topic
    dsimp only
    rw [if_neg (fun h => hne (by simpa using h))]
    unfold select_weakest
    rw [select_weakest_fold_const
      (topic_stats questions attempts student_id now subjects) none 1 hnone]
  · intro hnil
    unfold get_weakest_topic
    dsimp only
    rw [hnil]
    simp
  · intro t hsome
    unfold get_least_covered_topic at hsome
    dsimp only at hsome
    cases hL : ((scoped_questions questions subjects).map fun q => q.topic).dedup with
    | nil => rw [hL] at hsome; simp at hsome
    | cons t0 rest =>
      rw [hL] at hsome
      simp only [List.map_cons] at hsome
      obtain ⟨hmem, hle0, hall⟩ := foldl_min_by
        (rest.map fun x =>
          (x, topic_attempt_count (scoped_questions questions subjects) attempts student_id x))
        (t0, topic_attempt_count (scoped_questions questions subjects) attempts student_id t0)
      obtain rfl : ((rest.map fun x =>
          (x, topic_attempt_count (scoped_questions questions subjects) attempts student_id x)).foldl
            (fun best x => if x.2 < best.2 then x else best)
            (t0, topic_attempt_count (scoped_questions questions subjects) attempts
              student_id t0)).1 = t := Option.some.inj hsome
      have hmem2 : ((rest.map fun x =>
          (x, topic_attempt_count (scoped_questions questions subjects) attempts student_id x)).foldl
            (fun best x => if x.2 < best.2 then x else best)
            (t0, topic_attempt_count (scoped_questions questions subjects) attempts
              student_id t0))
          ∈ (t0 :: rest).map fun x =>
            (x, topic_attempt_count (scoped_questions questions subjects) attempts
              student_id x) := by
        rw [List.map_cons]
        exact hmem
      rcases List.mem_map.mp hmem2 with ⟨t1, ht1, hgt1⟩
      constructor
      · rw [← hgt1]
        exact ht1
      · intro t2 ht2
        have hcount : ((rest.map fun x =>
            (x, topic_attempt_count (scoped_questions questions subjects) attempts student_id x)).foldl
              (fun best x => if x.2 < best.2 then x else best)
              (t0, topic_attempt_count (scoped_questions questions subjects) attempts
                student_id t0)).2
            = topic_attempt_count (scoped_questions questions subjects) attempts student_id
              (((rest.map fun x =>
                (x, topic_attempt_count (scoped_questions questions subjects) attempts
                  student_id x)).foldl
                (fun best x => if x.2 < best.2 then x else best)
                (t0, topic_attempt_count (scoped_questions questions subjects) attempts
                  student_id t0)).1) := by
          rw [← hgt1]
        rcases List.mem_cons.mp ht2 with rfl | ht2
        · rw [← hcount]
          exact hle0
        · rw [← hcount]
          exact hall _ (List.mem_map_of_mem _ ht2)

/-- C4 witness: one topic with 3 in-window attempts and one miss (accuracy 2/3);
the lookup does return a topic. -/
theorem C4_weakest_topic_amended_witness :
    (get_weakest_topic [q_phys 1 3 "T"]
        [att 1 1 40 true, att 1 1 41 true, att 1 1 42 false] 1 50 []).isSome = true :=
  (C4_weakest_topic_amended [q_phys 1 3 "T"]
      [att 1 1 40 true, att 1 1 41 true, att 1 1 42 false] 1 50 []).2.1
    (by decide)
    ⟨("T", 3, 2), by decide, by norm_num [acc_of]⟩

/-! ### C10 : the revision-candidate lookup has no time window -/

theorem bool_scope_iff (L : List String) (x : String) :
    ((L.isEmpty || L.contains x) = true) ↔ (L = [] ∨ x ∈ L) := by
  simp

theorem revision_rows_eq (questions : List Question) (attempts : List Attempt)
    (student_id : Nat) (subjects chapters topics : List String) {q : Question}
    (hnd : (questions.map fun x => x.id).Nodup) (hq : q ∈ questions)
    (hS : (subjects.isEmpty || subjects.contains q.subject) = true)
    (hC : (chapters.isEmpty || chapters.contains q.chapter) = true)
    (hT : (topics.isEmpty || topics.contains q.topic) = true) :
    ((join_attempt_question questions attempts).filter fun p =>
        p.1.student_id == student_id
          && (subjects.isEmpty || subjects.contains p.2.subject)
          && (chapters.isEmpty || chapters.contains p.2.chapter)
          && (topics.isEmpty || topics.contains p.2.topic)).filter
      (fun p => p.2.id == q.id)
      = ((attempts.filter fun a => (a.student_id == student_id) && a.question_id == q.id).map
          fun a => (a, q)) := by
  rw [List.filter_filter]
  have hcong : ∀ p ∈ join_attempt_question questions attempts,
      ((p.2.id == q.id) &&
        (p.1.student_id == student_id
          && (subjects.isEmpty || subjects.contains p.2.subject)
          && (chapters.isEmpty || chapters.contains p.2.chapter)
          && (topics.isEmpty || topics.contains p.2.topic)))
        = ((p.1.student_id == student_id) && (p.2.id == q.id)) := by
    intro p hp
    by_cases hid : (p.2.id == q.id) = true
    · have hpq : p.2 = q := by
        apply List.inj_on_of_nodup_map hnd (mem_join_attempt_question hp).2.1 hq
        simpa using hid
      rw [hid, hpq, hS, hC, hT]
      simp [Bool.and_comm]
    · have hid2 : (p.2.id == q.id) = false := by
        cases h : (p.2.id == q.id)
        · rfl
        · exact absurd h hid
      rw [hid2]
      simp
  rw [List.filter_congr hcong]
  exact join_filter_eq attempts hnd hq fun a => a.student_id == student_id

theorem get_revision_questions_retime (questions : List Question) (attempts : List Attempt)
    (student_id : Nat) (subjects chapters topics : List String) (f : Nat → Nat) :
    get_revision_questions questions (attempts.map (retime f)) student_id subjects
        chapters topics
      = get_revision_questions questions attempts student_id subjects chapters topics := by
  unfold get_revision_questions
  dsimp only
  rw [join_retime]
  simp only [List.filter_map, List.map_map, List.length_map, List.countP_map]
  rfl

theorem revision_rows_counts (questions : List Question) (attempts : List Attempt)
    (student_id : Nat) (subjects chapters topics : List String) {q : Question}
    (hnd : (questions.map fun x => x.id).Nodup) (hq : q ∈ questions)
    (hS : (subjects.isEmpty || subjects.contains q.subject) = true)
    (hC : (chapters.isEmpty || chapters.contains q.chapter) = true)
    (hT : (topics.isEmpty || topics.contains q.topic) = true) :
    (((join_attempt_question questions attempts).filter fun p =>
        p.1.student_id == student_id
          && (subjects.isEmpty || subjects.contains p.2.subject)
          && (chapters.isEmpty || chapters.contains p.2.chapter)
          && (topics.isEmpty || topics.contains p.2.topic)).filter
      (fun p => p.2.id == q.id)).length
      = (attempts.filter fun a =>
          (a.student_id == student_id) && a.question_id == q.id).length
    ∧ (((join_attempt_question questions attempts).filter fun p =>
        p.1.student_id == student_id
          && (subjects.isEmpty || subjects.contains p.2.subject)
          && (chapters.isEmpty || chapters.contains p.2.chapter)
          && (topics.isEmpty || topics.contains p.2.topic)).filter
      (fun p => p.2.id == q.id)).countP (fun p => p.1.is_correct)
      = (attempts.filter fun a =>
          (a.student_id == student_id) && a.question_id == q.id).countP
          fun a => a.is_correct := by
  constructor
  · rw [revision_rows_eq questions attempts student_id subjects chapters topics hnd hq hS hC hT,
      List.length_map]
  · rw [revision_rows_eq questions attempts student_id subjects chapters topics hnd hq hS hC hT,
      List.countP_map]
    rfl

/-- C10: a question id is a revision candidate exactly when some stored question
carries that id, matches the optional subject/chapter/topic scope, and the
student's lifetime attempts on it number at least 2 with accuracy below 0.6 —
no time window is involved, and remapping every attempt timestamp leaves the
candidate list unchanged (unlike the 30-day-windowed weakest-topic lookup). -/
theorem C10_revision_candidates_no_window (questions : List Question)
    (attempts : List Attempt) (student_id : Nat)
    (subjects chapters topics : List String) (qid : Nat) (f : Nat → Nat)
    (hnd : (questions.map fun q => q.id).Nodup) :
    (qid ∈ get_revision_questions questions attempts student_id subjects chapters topics ↔
      ∃ q ∈ questions, q.id = qid
        ∧ (subjects = [] ∨ q.subject ∈ subjects)
        ∧ (chapters = [] ∨ q.chapter ∈ chapters)
        ∧ (topics = [] ∨ q.topic ∈ topics)
        ∧ 2 ≤ (attempts.filter fun a =>
            (a.student_id == student_id) && a.question_id == qid).length
        ∧ acc_of
            (attempts.filter fun a =>
              (a.student_id == student_id) && a.question_id == qid).length
            ((attempts.filter fun a =>
              (a.student_id == student_id) && a.question_id == qid).countP
                fun a => a.is_correct)
          < 3 / 5)
    ∧ get_revision_questions questions (attempts.map (retime f)) student_id subjects
        chapters topics
      = get_revision_questions questions attempts student_id subjects chapters topics := by
  refine ⟨?_, get_revision_questions_retime questions attempts student_id subjects
    chapters topics f⟩
  constructor
  · intro h
    unfold get_revision_questions at h
    dsimp only at h
    rcases List.mem_map.mp h with ⟨s, hsmem, hs1⟩
    have hsacc : acc_of s.2.1 s.2.2 < 3 / 5 := by
      have := (List.mem_filter.mp hsmem).2
      simpa using this
    have hs2 := List.mem_filter.mp (List.mem_filter.mp hsmem).1
    have hn2 : 2 ≤ s.2.1 := by simpa using hs2.2
    rcases List.mem_map.mp hs2.1 with ⟨qid0, hqid0mem, hgs⟩
    have hs1' : qid0 = qid := by
      rw [← hgs] at hs1
      exact hs1
    subst hs1'
    rw [List.mem_dedup] at hqid0mem
    rcases List.mem_map.mp hqid0mem with ⟨p, hp, hpid⟩
    obtain ⟨hpatt, hpq, hpqid⟩ := mem_join_attempt_question (List.mem_filter.mp hp).1
    have hrowp := (List.mem_filter.mp hp).2
    have hSb : (subjects.isEmpty || subjects.contains p.2.subject) = true := by
      simp only [Bool.and_eq_true] at hrowp
      exact hrowp.1.1.2
    have hCb : (chapters.isEmpty || chapters.contains p.2.chapter) = true := by
      simp only [Bool.and_eq_true] at hrowp
      exact hrowp.1.2
    have hTb : (topics.isEmpty || topics.contains p.2.topic) = true := by
      simp only [Bool.and_eq_true] at hrowp
      exact hrowp.2
    obtain ⟨hlen, hcnt⟩ := revision_rows_counts questions attempts student_id subjects
      chapters topics hnd hpq hSb hCb hTb
    rw [hpid] at hlen hcnt
    rw [← hgs] at hn2 hsacc
    dsimp only at hn2 hsacc
    rw [hlen] at hn2 hsacc
    rw [hcnt] at hsacc
    exact ⟨p.2, hpq, hpid, (bool_scope_iff _ _).mp hSb, (bool_scope_iff _ _).mp hCb,
      (bool_scope_iff _ _).mp hTb, hn2, hsacc⟩
  · rintro ⟨q, hq, hqid, hSp, hCp, hTp, hn2, hacc⟩
    have hSb := (bool_scope_iff subjects q.subject).mpr hSp
    have hCb := (bool_scope_iff chapters q.chapter).mpr hCp
    have hTb := (bool_scope_iff topics q.topic).mpr hTp
    obtain ⟨hlen, hcnt⟩ := revision_rows_counts questions attempts student_id subjects
      chapters topics hnd hq hSb hCb hTb
    rw [hqid] at hlen hcnt
    have hplen : 0 < (attempts.filter fun a =>
        (a.student_id == student_id) && a.question_id == qid).length := by omega
    have hpne : (attempts.filter fun a =>
        (a.student_id == student_id) && a.question_id == qid) ≠ [] := by
      intro hnil
      rw [hnil] at hplen
      simp at hplen
    obtain ⟨a, ha⟩ := List.exists_mem_of_ne_nil _ hpne
    have haf := List.mem_filter.mp ha
    obtain ⟨has, haq⟩ : (a.student_id == student_id) = true
        ∧ (a.question_id == qid) = true := by
      simpa [Bool.and_eq_true] using haf.2
    have haqid : a.question_id = qid := by simpa using haq
    have hfind_some : (questions.find? fun qq => qq.id == a.question_id).isSome := by
      rw [List.find?_isSome]
      exact ⟨q, hq, by simp [haqid, hqid]⟩
    obtain ⟨q2, hfind⟩ := Option.isSome_iff_exists.mp hfind_some
    have hq2mem : q2 ∈ questions := List.mem_of_find?_eq_some hfind
    have hq2id : q2.id = a.question_id := by simpa using List.find?_some hfind
    have hq2q : q2 = q := List.inj_on_of_nodup_map hnd hq2mem hq (by rw [hq2id, haqid, hqid])
    have hjoin : (a, q) ∈ join_attempt_question questions attempts := by
      apply List.mem_filterMap.mpr
      refine ⟨a, haf.1, ?_⟩
      rw [hfind, hq2q]
      rfl
    have hrow : (a, q) ∈ (join_attempt_question questions attempts).filter fun p =>
        p.1.student_id == student_id
          && (subjects.isEmpty || subjects.contains p.2.subject)
          && (chapters.isEmpty || chapters.contains p.2.chapter)
          && (topics.isEmpty || topics.contains p.2.topic) := by
      rw [List.mem_filter]
      refine ⟨hjoin, ?_⟩
      simp only [Bool.and_eq_true]
      exact ⟨⟨⟨has, hSb⟩, hCb⟩, hTb⟩
    have hqidmem : qid ∈ (((join_attempt_question questions attempts).filter fun p =>
        p.1.student_id == student_id
          && (subjects.isEmpty || subjects.contains p.2.subject)
          && (chapters.isEmpty || chapters.contains p.2.chapter)
          && (topics.isEmpty || topics.contains p.2.topic)).map fun p => p.2.id).dedup := by
      rw [List.mem_dedup]
      exact List.mem_map.mpr ⟨(a, q), hrow, hqid⟩
    unfold get_revision_questions
    dsimp only
    apply List.mem_map.mpr
    refine ⟨(qid,
      (((join_attempt_question questions attempts).filter fun p =>
        p.1.student_id == student_id
          && (subjects.isEmpty || subjects.contains p.2.subject)
          && (chapters.isEmpty || chapters.contains p.2.chapter)
          && (topics.isEmpty || topics.contains p.2.topic)).filter
        (fun p => p.2.id == qid)).length,
      (((join_attempt_question questions attempts).filter fun p =>
        p.1.student_id == student_id
          && (subjects.isEmpty || subjects.contains p.2.subject)
          && (chapters.isEmpty || chapters.contains p.2.chapter)
          && (topics.isEmpty || topics.contains p.2.topic)).filter
        (fun p => p.2.id == qid)).countP fun p => p.1.is_correct), ?_, rfl⟩
    rw [List.mem_filter]
    refine ⟨?_, ?_⟩
    · rw [List.mem_filter]
      refine ⟨List.mem_map.mpr ⟨qid, hqidmem, rfl⟩, ?_⟩
      dsimp only
      rw [hlen]
      simpa using hn2
    · dsimp only
      rw [hlen, hcnt]
      simpa using hacc

/-- C10 witness: shifting every attempt timestamp by 1000 days leaves the
revision-candidate list of a concrete store unchanged. -/
theorem C10_revision_candidates_no_window_witness :
    get_revision_questions [q_phys 1 2 "T"]
        ([att 1 1 10 false, att 1 1 20 false].map (retime fun t => t + 1000))
        1 [] [] []
      = get_revision_questions [q_phys 1 2 "T"] [att 1 1 10 false, att 1 1 20 false]
          1 [] [] [] :=
  (C10_revision_candidates_no_window [q_phys 1 2 "T"] [att 1 1 10 false, att 1 1 20 false]
      1 [] [] [] 1 (fun t => t + 1000) (by decide)).2

/-! ### C7 : soundness and ordering of the revision recommendation list -/

/-- C7: every returned revision item is a question the student got wrong in the
last 30 days; its `last_attempt` is the timestamp of the student's most recent
incorrect attempt on it; no correct attempt is more recent than that; the
attempt count is the number of in-window misses and the priority is that count
capped at 3; and the list is ordered most-recently-wrong first. -/
theorem C7_revision_recommendations_sound (questions : List Question)
    (attempts : List Attempt) (student_id now limit : Nat)
    (hnd : (questions.map fun q => q.id).Nodup) :
    (∀ r ∈ get_revision_recommendations questions attempts student_id now limit,
      (∃ a ∈ attempts, a.student_id = student_id ∧ a.question_id = r.question_id
        ∧ a.is_correct = false ∧ now - 30 ≤ a.created_at
        ∧ a.created_at = r.last_attempt)
      ∧ (∀ a ∈ attempts, a.student_id = student_id → a.question_id = r.question_id →
          a.is_correct = false → a.created_at ≤ r.last_attempt)
      ∧ (∀ a ∈ attempts, a.student_id = student_id → a.question_id = r.question_id →
          a.is_correct = true → a.created_at ≤ r.last_attempt)
      ∧ r.attempt_count = (attempts.filter fun a =>
          a.student_id == student_id && !a.is_correct && decide (now - 30 ≤ a.created_at)
            && a.question_id == r.question_id).length
      ∧ r.priority = min r.attempt_count 3)
    ∧ (get_revision_recommendations questions attempts student_id now limit).Pairwise
        fun r1 r2 => r2.last_attempt ≤ r1.last_attempt := by
  constructor
  · intro r hr
    unfold get_revision_recommendations at hr
    dsimp only at hr
    rcases List.mem_filterMap.mp hr with ⟨g, hgord, hfg⟩
    cases hemp : (attempts.filter fun a =>
        a.student_id == student_id && a.question_id == g.1.id && a.is_correct
          && decide (g.2.2 < a.created_at)).isEmpty with
    | false =>
      rw [hemp] at hfg
      simp at hfg
    | true =>
      rw [hemp] at hfg
      simp only [if_true] at hfg
      have hempty : (attempts.filter fun a =>
          a.student_id == student_id && a.question_id == g.1.id && a.is_correct
            && decide (g.2.2 < a.created_at)) = [] := by
        simpa using hemp
      obtain rfl := Option.some.inj hfg
      have hgg := mem_sort_desc.mp (List.mem_of_mem_take hgord)
      rcases List.mem_map.mp hgg with ⟨q, hqdedup, hgq⟩
      have hq_qs : q ∈ questions := by
        rw [List.mem_dedup] at hqdedup
        rcases List.mem_map.mp hqdedup with ⟨p, hp, hpq⟩
        have := (mem_join_attempt_question (List.mem_filter.mp hp).1).2.1
        rwa [hpq] at this
      have hq_eq : (((join_attempt_question questions attempts).filter fun p =>
            p.1.student_id == student_id && !p.1.is_correct
              && decide (now - 30 ≤ p.1.created_at)).filter
          fun p => p.2.id == q.id)
          = ((attempts.filter fun a =>
              (a.student_id == student_id && !a.is_correct
                && decide (now - 30 ≤ a.created_at)) && a.question_id == q.id).map
            fun a => (a, q)) := by
        rw [List.filter_filter]
        rw [List.filter_congr fun p _ => Bool.and_comm _ _]
        exact join_filter_eq attempts hnd hq_qs
          fun a => a.student_id == student_id && !a.is_correct
            && decide (now - 30 ≤ a.created_at)
      subst hgq
      dsimp only at hempty ⊢
      have hqrows_ne : (((join_attempt_question questions attempts).filter fun p =>
            p.1.student_id == student_id && !p.1.is_correct
              && decide (now - 30 ≤ p.1.created_at)).filter
          fun p => p.2.id == q.id) ≠ [] := by
        rw [List.mem_dedup] at hqdedup
        rcases List.mem_map.mp hqdedup with ⟨p, hp, hpq⟩
        intro hnil
        have hpmem : p ∈ (((join_attempt_question questions attempts).filter fun p =>
            p.1.student_id == student_id && !p.1.is_correct
              && decide (now - 30 ≤ p.1.created_at)).filter
          fun p => p.2.id == q.id) := by
          rw [List.mem_filter]
          exact ⟨hp, by simp [hpq]⟩
        rw [hnil] at hpmem
        cases hpmem
      have hwr_ne : (attempts.filter fun a =>
          (a.student_id == student_id && !a.is_correct
            && decide (now - 30 ≤ a.created_at)) && a.question_id == q.id) ≠ [] := by
        intro hnil
        rw [hq_eq, hnil] at hqrows_ne
        exact hqrows_ne rfl
      have hfold : (((join_attempt_question questions attempts).filter fun p =>
            p.1.student_id == student_id && !p.1.is_correct
              && decide (now - 30 ≤ p.1.created_at)).filter
          fun p => p.2.id == q.id).foldl (fun m p => max m p.1.created_at) 0
          = (attempts.filter fun a =>
              (a.student_id == student_id && !a.is_correct
                && decide (now - 30 ≤ a.created_at)) && a.question_id == q.id).foldl
            (fun m a => max m a.created_at) 0 := by
        rw [hq_eq, List.foldl_map]
      obtain ⟨aw, hawmem, hawfold⟩ := @foldl_max_attains _
        (fun a => a.created_at) _ hwr_ne
      have hawf := List.mem_filter.mp hawmem
      refine ⟨?_, ?_, ?_, ?_, ?_⟩
      · refine ⟨aw, hawf.1, ?_, ?_, ?_, ?_, ?_⟩
        · have hb := hawf.2
          simp only [Bool.and_eq_true] at hb
          simpa using hb.1.1.1
        · have hb := hawf.2
          simp only [Bool.and_eq_true] at hb
          simpa using hb.2
        · have hb := hawf.2
          simp only [Bool.and_eq_true] at hb
          simpa using hb.1.1.2
        · have hb := hawf.2
          simp only [Bool.and_eq_true] at hb
          simpa using hb.1.2
        · exact (hfold.trans hawfold).symm
      · intro a ha hs hqid hc
        by_cases hwin : now - 30 ≤ a.created_at
        · have hamem : a ∈ attempts.filter fun a =>
              (a.student_id == student_id && !a.is_correct
                && decide (now - 30 ≤ a.created_at)) && a.question_id == q.id := by
            rw [List.mem_filter]
            refine ⟨ha, ?_⟩
            simp [hs, hqid, hc, hwin]
          have hle := foldl_max_ge (fun a => a.created_at)
            (attempts.filter fun a =>
              (a.student_id == student_id && !a.is_correct
                && decide (now - 30 ≤ a.created_at)) && a.question_id == q.id) 0 a hamem
          rw [← hfold] at hle
          exact hle
        · have hcw : now - 30 ≤ aw.created_at := by
            have hb := hawf.2
            simp only [Bool.and_eq_true] at hb
            simpa using hb.1.2
          rw [hfold, hawfold]
          omega
      · intro a ha hs hqid hc
        by_contra hlt
        have hamem : a ∈ attempts.filter fun a =>
            a.student_id == student_id && a.question_id == q.id && a.is_correct
              && decide ((((join_attempt_question questions attempts).filter fun p =>
                  p.1.student_id == student_id && !p.1.is_correct
                    && decide (now - 30 ≤ p.1.created_at)).filter
                fun p => p.2.id == q.id).foldl (fun m p => max m p.1.created_at) 0
                < a.created_at) := by
          rw [List.mem_filter]
          refine ⟨ha, ?_⟩
          simp only [Bool.and_eq_true, beq_iff_eq, decide_eq_true_eq]
          refine ⟨⟨⟨hs, hqid⟩, hc⟩, ?_⟩
          omega
        rw [hempty] at hamem
        cases hamem
      · rw [hq_eq, List.length_map]
      · rfl
  · unfold get_revision_recommendations
    dsimp only
    rw [List.pairwise_filterMap]
    apply List.Pairwise.sublist (List.take_sublist limit _)
    refine List.Pairwise.imp ?_ (pairwise_sort_desc (fun g => g.2.2) _)
    intro g1 g2 hle r1 hr1 r2 hr2
    have h1 : r1.last_attempt = g1.2.2 := by
      by_cases h : (attempts.filter fun a =>
          a.student_id == student_id && a.question_id == g1.1.id && a.is_correct
            && decide (g1.2.2 < a.created_at)).isEmpty
      · rw [if_pos h, Option.mem_def] at hr1
        obtain rfl := Option.some.inj hr1
        rfl
      · rw [if_neg h, Option.mem_def] at hr1
        simp at hr1
    have h2 : r2.last_attempt = g2.2.2 := by
      by_cases h : (attempts.filter fun a =>
          a.student_id == student_id && a.question_id == g2.1.id && a.is_correct
            && decide (g2.2.2 < a.created_at)).isEmpty
      · rw [if_pos h, Option.mem_def] at hr2
        obtain rfl := Option.some.inj hr2
        rfl
      · rw [if_neg h, Option.mem_def] at hr2
        simp at hr2
    rw [h1, h2]
    exact hle

/-- C7 witness: a concrete store with one missed question; the recommendation
list it yields is ordered most-recently-wrong first. -/
theorem C7_revision_recommendations_sound_witness :
    (get_revision_recommendations [q_phys 2 3 "W"] [att 1 2 45 false] 1 50 10).Pairwise
      fun r1 r2 => r2.last_attempt ≤ r1.last_attempt :=
  (C7_revision_recommendations_sound [q_phys 2 3 "W"] [att 1 2 45 false] 1 50 10
    (by decide)).2

end Tachy
